import Mathlib

/-!
Verification development for the hasher repository (src/new.py).

The embedding models the core pipeline of new.py:
  hash_file      : chunked read of a file fed into an incremental digest
  collect_files  : expansion of user paths into a flat list of file paths
  main           : algorithm selection, collection, the empty-set check and
                   the append-only output log

Machine words are Nat with explicit reduction modulo 2 ^ 32; file contents
are lists of byte values (Nat below 256).  The hashlib accumulators that
new.py calls (hashlib.sha256, hashlib.sha1, hashlib.md5) are external
library code, modelled functionally: the accumulator state is the byte
sequence fed so far, and finalisation applies the corresponding pure digest
function, implemented below from the published algorithm descriptions
(FIPS 180-4 for the 256-bit and 160-bit algorithms, RFC 1321 for the
128-bit one).
-/

namespace Hasher

/-! ## Bytes, words and hex strings -/

/-- Modulus for 32-bit machine words. -/
def M32 : Nat := 4294967296

/-- Rotate a 32-bit word right by n bits (0 < n < 32, x < M32). -/
def rotr32 (n x : Nat) : Nat := ((x >>> n) ||| (x <<< (32 - n))) % M32

/-- Rotate a 32-bit word left by n bits (0 < n < 32, x < M32). -/
def rotl32 (n x : Nat) : Nat := ((x <<< n) ||| (x >>> (32 - n))) % M32

/-- Bitwise complement of a 32-bit word. -/
def not32 (x : Nat) : Nat := x ^^^ (M32 - 1)

/-- Big-endian byte serialisation of x into n bytes. -/
def toBytesBE (n x : Nat) : List Nat :=
  (List.range n).map (fun i => (x >>> (8 * (n - 1 - i))) % 256)

/-- Little-endian byte serialisation of x into n bytes. -/
def toBytesLE (n x : Nat) : List Nat :=
  (List.range n).map (fun i => (x >>> (8 * i)) % 256)

/-- Group a byte list into 32-bit words, big-endian (trailing bytes that do
not fill a word are dropped; inputs are always multiples of 4 bytes). -/
def bytesToWordsBE : List Nat → List Nat
  | b0 :: b1 :: b2 :: b3 :: rest =>
      ((((b0 <<< 8) ||| b1) <<< 8 ||| b2) <<< 8 ||| b3) :: bytesToWordsBE rest
  | _ => []

/-- Group a byte list into 32-bit words, little-endian. -/
def bytesToWordsLE : List Nat → List Nat
  | b0 :: b1 :: b2 :: b3 :: rest =>
      (b0 ||| (b1 <<< 8) ||| (b2 <<< 16) ||| (b3 <<< 24)) :: bytesToWordsLE rest
  | _ => []

/-- Lowercase hexadecimal digit for a value below 16. -/
def hexChar (n : Nat) : Char :=
  if n < 10 then Char.ofNat (48 + n) else Char.ofNat (87 + n)

/-- Lowercase hexadecimal rendering of a byte list, two digits per byte,
as produced by hexdigest in hashlib. -/
def bytesToHex (bs : List Nat) : String :=
  String.mk (bs.foldr (fun b acc => hexChar (b / 16) :: hexChar (b % 16) :: acc) [])

/-- Fuel-indexed worker for chunksOf; the fuel bounds the number of reads. -/
def chunksOfGo {α : Type} : Nat → Nat → List α → List (List α)
  | 0, _, _ => []
  | _ + 1, _, [] => []
  | fuel + 1, k, a :: l => ((a :: l).take k) :: chunksOfGo fuel k ((a :: l).drop k)

/-- The sequence of chunks returned by the read loop of hash_file in
new.py (while chunk := f.read(8192)) when the file holds the byte list l
and each read returns up to k bytes: successive take/drop groups of size k,
the last one possibly shorter. -/
def chunksOf {α : Type} (k : Nat) (l : List α) : List (List α) :=
  chunksOfGo l.length k l

/-! ## The 256-bit algorithm (hashlib.sha256), FIPS 180-4 -/

/-- Eight 32-bit working variables of the 256-bit compression function. -/
abbrev St8 := Nat × Nat × Nat × Nat × Nat × Nat × Nat × Nat

/-- Round constants of the 256-bit algorithm (decimal, FIPS 180-4 order). -/
def sha256K : List Nat :=
  [1116352408, 1899447441, 3049323471, 3921009573, 961987163, 1508970993, 2453635748, 2870763221,
   3624381080, 310598401, 607225278, 1426881987, 1925078388, 2162078206, 2614888103, 3248222580,
   3835390401, 4022224774, 264347078, 604807628, 770255983, 1249150122, 1555081692, 1996064986,
   2554220882, 2821834349, 2952996808, 3210313671, 3336571891, 3584528711, 113926993, 338241895,
   666307205, 773529912, 1294757372, 1396182291, 1695183700, 1986661051, 2177026350, 2456956037,
   2730485921, 2820302411, 3259730800, 3345764771, 3516065817, 3600352804, 4094571909, 275423344,
   430227734, 506948616, 659060556, 883997877, 958139571, 1322822218, 1537002063, 1747873779,
   1955562222, 2024104815, 2227730452, 2361852424, 2428436474, 2756734187, 3204031479, 3329325298]

/-- Initial hash value of the 256-bit algorithm. -/
def sha256H0 : St8 :=
  (0x6a09e667, 0xbb67ae85, 0x3c6ef372, 0xa54ff53a, 0x510e527f, 0x9b05688c, 0x1f83d9ab, 0x5be0cd19)

/-- Small sigma 0 of the message schedule. -/
def sha256s0 (x : Nat) : Nat := rotr32 7 x ^^^ rotr32 18 x ^^^ (x >>> 3)

/-- Small sigma 1 of the message schedule. -/
def sha256s1 (x : Nat) : Nat := rotr32 17 x ^^^ rotr32 19 x ^^^ (x >>> 10)

/-- Big Sigma 0 of the compression function. -/
def sha256S0 (x : Nat) : Nat := rotr32 2 x ^^^ rotr32 13 x ^^^ rotr32 22 x

/-- Big Sigma 1 of the compression function. -/
def sha256S1 (x : Nat) : Nat := rotr32 6 x ^^^ rotr32 11 x ^^^ rotr32 25 x

/-- Extend a message schedule by n further words. -/
def sha256Extend : Nat → List Nat → List Nat
  | 0, ws => ws
  | n + 1, ws =>
      let t := ws.length
      let w := (sha256s1 (ws.getD (t - 2) 0) + ws.getD (t - 7) 0 +
                sha256s0 (ws.getD (t - 15) 0) + ws.getD (t - 16) 0) % M32
      sha256Extend n (ws ++ [w])

/-- One round of the 256-bit compression function with round constant kt
and schedule word wt. -/
def sha256Round (st : St8) (kt wt : Nat) : St8 :=
  match st with
  | (a, b, c, d, e, f, g, h) =>
      let ch := (e &&& f) ^^^ (not32 e &&& g)
      let maj := (a &&& b) ^^^ (a &&& c) ^^^ (b &&& c)
      let t1 := (h + sha256S1 e + ch + kt + wt) % M32
      let t2 := (sha256S0 a + maj) % M32
      ((t1 + t2) % M32, a, b, c, (d + t1) % M32, e, f, g)

/-- Pointwise 32-bit addition of two states. -/
def add8 (x y : St8) : St8 :=
  ((x.1 + y.1) % M32, (x.2.1 + y.2.1) % M32, (x.2.2.1 + y.2.2.1) % M32,
   (x.2.2.2.1 + y.2.2.2.1) % M32, (x.2.2.2.2.1 + y.2.2.2.2.1) % M32,
   (x.2.2.2.2.2.1 + y.2.2.2.2.2.1) % M32, (x.2.2.2.2.2.2.1 + y.2.2.2.2.2.2.1) % M32,
   (x.2.2.2.2.2.2.2 + y.2.2.2.2.2.2.2) % M32)

/-- Process one 16-word block of the 256-bit algorithm. -/
def sha256Compress (st : St8) (block : List Nat) : St8 :=
  let ws := sha256Extend 48 block
  let fin := (List.zip sha256K ws).foldl (fun s kw => sha256Round s kw.1 kw.2) st
  add8 st fin

/-- Merkle-Damgard padding with a big-endian 64-bit bit length, shared by
the 256-bit and 160-bit algorithms. -/
def padBE (msg : List Nat) : List Nat :=
  msg ++ [0x80] ++ List.replicate ((55 + 64 - msg.length % 64) % 64) 0 ++
    toBytesBE 8 (8 * msg.length)

/-- Big-endian serialisation of the eight-word state. -/
def st8Bytes (st : St8) : List Nat :=
  toBytesBE 4 st.1 ++ toBytesBE 4 st.2.1 ++ toBytesBE 4 st.2.2.1 ++
  toBytesBE 4 st.2.2.2.1 ++ toBytesBE 4 st.2.2.2.2.1 ++ toBytesBE 4 st.2.2.2.2.2.1 ++
  toBytesBE 4 st.2.2.2.2.2.2.1 ++ toBytesBE 4 st.2.2.2.2.2.2.2

/-- The 256-bit digest of a byte list, as 32 bytes. -/
def sha256Bytes (msg : List Nat) : List Nat :=
  let blocks := (chunksOf 64 (padBE msg)).map bytesToWordsBE
  st8Bytes (blocks.foldl sha256Compress sha256H0)


/-! ## The legacy 160-bit algorithm (hashlib.sha1), FIPS 180-4 -/

/-- Five 32-bit working variables of the 160-bit compression function. -/
abbrev St5 := Nat × Nat × Nat × Nat × Nat

/-- Initial hash value of the 160-bit algorithm. -/
def sha1H0 : St5 := (0x67452301, 0xefcdab89, 0x98badcfe, 0x10325476, 0xc3d2e1f0)

/-- Extend a message schedule of the 160-bit algorithm by n further words. -/
def sha1Extend : Nat → List Nat → List Nat
  | 0, ws => ws
  | n + 1, ws =>
      let t := ws.length
      let w := rotl32 1 (ws.getD (t - 3) 0 ^^^ ws.getD (t - 8) 0 ^^^
                         ws.getD (t - 14) 0 ^^^ ws.getD (t - 16) 0)
      sha1Extend n (ws ++ [w])

/-- Round function selector of the 160-bit algorithm for round t. -/
def sha1F (t b c d : Nat) : Nat :=
  if t < 20 then (b &&& c) ||| (not32 b &&& d)
  else if t < 40 then b ^^^ c ^^^ d
  else if t < 60 then (b &&& c) ||| (b &&& d) ||| (c &&& d)
  else b ^^^ c ^^^ d

/-- Round constant of the 160-bit algorithm for round t. -/
def sha1KOf (t : Nat) : Nat :=
  if t < 20 then 0x5a827999
  else if t < 40 then 0x6ed9eba1
  else if t < 60 then 0x8f1bbcdc
  else 0xca62c1d6

/-- One round of the 160-bit compression function; t is the round index
and wt the schedule word. -/
def sha1Round (st : St5) (t wt : Nat) : St5 :=
  match st with
  | (a, b, c, d, e) =>
      let temp := (rotl32 5 a + sha1F t b c d + e + sha1KOf t + wt) % M32
      (temp, a, rotl32 30 b, c, d)

/-- Pointwise 32-bit addition of two five-word states. -/
def add5 (x y : St5) : St5 :=
  ((x.1 + y.1) % M32, (x.2.1 + y.2.1) % M32, (x.2.2.1 + y.2.2.1) % M32,
   (x.2.2.2.1 + y.2.2.2.1) % M32, (x.2.2.2.2 + y.2.2.2.2) % M32)

/-- Process one 16-word block of the 160-bit algorithm. -/
def sha1Compress (st : St5) (block : List Nat) : St5 :=
  let ws := sha1Extend 64 block
  let fin := ws.enum.foldl (fun s tw => sha1Round s tw.1 tw.2) st
  add5 st fin

/-- Big-endian serialisation of the five-word state. -/
def st5Bytes (st : St5) : List Nat :=
  toBytesBE 4 st.1 ++ toBytesBE 4 st.2.1 ++ toBytesBE 4 st.2.2.1 ++
  toBytesBE 4 st.2.2.2.1 ++ toBytesBE 4 st.2.2.2.2

/-- The 160-bit digest of a byte list, as 20 bytes. -/
def sha1Bytes (msg : List Nat) : List Nat :=
  let blocks := (chunksOf 64 (padBE msg)).map bytesToWordsBE
  st5Bytes (blocks.foldl sha1Compress sha1H0)


/-! ## The legacy 128-bit algorithm (hashlib.md5), RFC 1321 -/

/-- Four 32-bit working variables of the 128-bit compression function. -/
abbrev St4 := Nat × Nat × Nat × Nat

/-- Initial state of the 128-bit algorithm. -/
def md5H0 : St4 := (0x67452301, 0xefcdab89, 0x98badcfe, 0x10325476)

/-- Sine-derived additive constants of the 128-bit algorithm. -/
def md5K : List Nat :=
  [0xd76aa478, 0xe8c7b756, 0x242070db, 0xc1bdceee, 0xf57c0faf, 0x4787c62a, 0xa8304613, 0xfd469501,
   0x698098d8, 0x8b44f7af, 0xffff5bb1, 0x895cd7be, 0x6b901122, 0xfd987193, 0xa679438e, 0x49b40821,
   0xf61e2562, 0xc040b340, 0x265e5a51, 0xe9b6c7aa, 0xd62f105d, 0x02441453, 0xd8a1e681, 0xe7d3fbc8,
   0x21e1cde6, 0xc33707d6, 0xf4d50d87, 0x455a14ed, 0xa9e3e905, 0xfcefa3f8, 0x676f02d9, 0x8d2a4c8a,
   0xfffa3942, 0x8771f681, 0x6d9d6122, 0xfde5380c, 0xa4beea44, 0x4bdecfa9, 0xf6bb4b60, 0xbebfbc70,
   0x289b7ec6, 0xeaa127fa, 0xd4ef3085, 0x04881d05, 0xd9d4d039, 0xe6db99e5, 0x1fa27cf8, 0xc4ac5665,
   0xf4292244, 0x432aff97, 0xab9423a7, 0xfc93a039, 0x655b59c3, 0x8f0ccc92, 0xffeff47d, 0x85845dd1,
   0x6fa87e4f, 0xfe2ce6e0, 0xa3014314, 0x4e0811a1, 0xf7537e82, 0xbd3af235, 0x2ad7d2bb, 0xeb86d391]

/-- Per-round left-rotation amounts of the 128-bit algorithm. -/
def md5S : List Nat :=
  [7, 12, 17, 22, 7, 12, 17, 22, 7, 12, 17, 22, 7, 12, 17, 22,
   5, 9, 14, 20, 5, 9, 14, 20, 5, 9, 14, 20, 5, 9, 14, 20,
   4, 11, 16, 23, 4, 11, 16, 23, 4, 11, 16, 23, 4, 11, 16, 23,
   6, 10, 15, 21, 6, 10, 15, 21, 6, 10, 15, 21, 6, 10, 15, 21]

/-- Nonlinear function of the 128-bit algorithm for round i. -/
def md5F (i b c d : Nat) : Nat :=
  if i < 16 then (b &&& c) ||| (not32 b &&& d)
  else if i < 32 then (d &&& b) ||| (not32 d &&& c)
  else if i < 48 then b ^^^ c ^^^ d
  else c ^^^ (b ||| not32 d)

/-- Message-word index of the 128-bit algorithm for round i. -/
def md5G (i : Nat) : Nat :=
  if i < 16 then i
  else if i < 32 then (5 * i + 1) % 16
  else if i < 48 then (3 * i + 5) % 16
  else (7 * i) % 16

/-- One round of the 128-bit compression function over block words m. -/
def md5Round (m : List Nat) (st : St4) (i : Nat) : St4 :=
  match st with
  | (a, b, c, d) =>
      let f := (md5F i b c d + a + md5K.getD i 0 + m.getD (md5G i) 0) % M32
      (d, (b + rotl32 (md5S.getD i 0) f) % M32, b, c)

/-- Pointwise 32-bit addition of two four-word states. -/
def add4 (x y : St4) : St4 :=
  ((x.1 + y.1) % M32, (x.2.1 + y.2.1) % M32, (x.2.2.1 + y.2.2.1) % M32,
   (x.2.2.2 + y.2.2.2) % M32)

/-- Process one 16-word block of the 128-bit algorithm. -/
def md5Compress (st : St4) (block : List Nat) : St4 :=
  add4 st ((List.range 64).foldl (md5Round block) st)

/-- RFC 1321 padding: like padBE but with a little-endian length field. -/
def padLE (msg : List Nat) : List Nat :=
  msg ++ [0x80] ++ List.replicate ((55 + 64 - msg.length % 64) % 64) 0 ++
    toBytesLE 8 (8 * msg.length)

/-- Little-endian serialisation of the four-word state. -/
def st4Bytes (st : St4) : List Nat :=
  toBytesLE 4 st.1 ++ toBytesLE 4 st.2.1 ++ toBytesLE 4 st.2.2.1 ++ toBytesLE 4 st.2.2.2

/-- The 128-bit digest of a byte list, as 16 bytes. -/
def md5Bytes (msg : List Nat) : List Nat :=
  let blocks := (chunksOf 64 (padLE msg)).map bytesToWordsLE
  st4Bytes (blocks.foldl md5Compress md5H0)


/-! ## The hashlib accumulator model and algorithm selection -/

/-- The closed set of algorithms of HASH_ALGOS in new.py. -/
inductive HashAlgo : Type
  | sha256 : HashAlgo
  | sha1 : HashAlgo
  | md5 : HashAlgo
deriving DecidableEq

/-- Pure digest function of each supported algorithm, as bytes. -/
def digestBytes : HashAlgo → List Nat → List Nat
  | HashAlgo.sha256, msg => sha256Bytes msg
  | HashAlgo.sha1, msg => sha1Bytes msg
  | HashAlgo.md5, msg => md5Bytes msg

/-- State of a hashlib accumulator, modelled functionally as the byte
sequence fed so far; algo_func() in hash_file starts it empty. -/
def hasherInit : List Nat := []

/-- hasher.update(chunk): feed one chunk into the accumulator. -/
def hasherUpdate (s chunk : List Nat) : List Nat := s ++ chunk

/-- hasher.hexdigest(): finalise the accumulator into the lowercase
hexadecimal digest string of the selected algorithm. -/
def hasherHexdigest (algo : HashAlgo) (s : List Nat) : String :=
  bytesToHex (digestBytes algo s)

/-- The name table HASH_ALGOS of new.py (insertion order of the dict). -/
def HASH_ALGOS : List (String × HashAlgo) :=
  [("sha256", HashAlgo.sha256), ("sha1", HashAlgo.sha1), ("md5", HashAlgo.md5)]

/-- Algorithm lookup as performed by argparse choices plus
HASH_ALGOS[args.algo] in main: none when the name is not in the table, in
which case argparse rejects the command line before anything else runs. -/
def parseAlgo (name : String) : Option HashAlgo :=
  (HASH_ALGOS.find? (fun kv => kv.1 == name)).map (fun kv => kv.2)

/-! ## Filesystem and run environment -/

/-- Abstract filesystem a run executes against.  isFile and isDir model
Path.is_file and Path.is_dir; rglob models the full recursive enumeration
returned by Path.rglob, listing every entry (of any kind) reachable under
a directory in its implementation-defined per-run order; readFile models
opening a path for binary reading and reading it to the end, returning
none when the open or any read raises. -/
structure FS : Type where
  isFile : String → Bool
  isDir : String → Bool
  rglob : String → List String
  readFile : String → Option (List Nat)

/-- A filesystem is wellformed when no path is both a regular file and a
directory. -/
def FS.Wellformed (fs : FS) : Prop :=
  ∀ p : String, fs.isFile p = true → fs.isDir p = false

/-- Ambient data of one run that the log lines capture: the filesystem,
the file -b type description per path, the exception text produced when a
read of a path fails, the datetime.now() string at the i-th loop
iteration, and os.getcwd(). -/
structure RunEnv : Type where
  fs : FS
  fileType : String → String
  errMsg : String → String
  timestamp : Nat → String
  cwd : String

/-! ## hash_file -/

/-- The digest hash_file computes when the reads deliver the content in
chunks of size chunkSize: each chunk is fed into the accumulator in read
order and the accumulator is finalised at end of file. -/
def hashChunked (algo : HashAlgo) (chunkSize : Nat) (content : List Nat) : String :=
  hasherHexdigest algo ((chunksOf chunkSize content).foldl hasherUpdate hasherInit)

/-- hash_file of new.py: open the file for binary reading, feed it into
the accumulator in chunks of 8192 bytes, and return the hex digest; any
exception from the open or a read is caught by the catch-all handler,
which emits an error notice and returns None. -/
def hashFile (fs : FS) (algo : HashAlgo) (filepath : String) : Option String :=
  match fs.readFile filepath with
  | none => none
  | some content => some (hashChunked algo 8192 content)

/-! ## collect_files -/

/-- Loop body of collect_files in new.py, acting on the accumulated pair
of the file list and the emitted error notices: a directory input extends
the list with the is_file entries of its recursive enumeration, a file
input appends itself, anything else emits one Invalid path notice. -/
def collectStep (fs : FS) (acc : List String × List String) (path : String) :
    List String × List String :=
  if fs.isDir path then (acc.1 ++ (fs.rglob path).filter fs.isFile, acc.2)
  else if fs.isFile path then (acc.1 ++ [path], acc.2)
  else (acc.1, acc.2 ++ ["Invalid path: " ++ path])

/-- collect_files of new.py: one pass over the input paths accumulating
the flat file list and, on the error channel, one Invalid path notice per
input that is neither a directory nor a regular file. -/
def collectFiles (fs : FS) (paths : List String) : List String × List String :=
  paths.foldl (collectStep fs) ([], [])

/-- Specification-side expansion of a single input path, following the
Path Collector contract of the spec word for word: a regular file is
included as-is, a directory is replaced by the regular files reachable
under it, anything else contributes nothing.  Named separately so the
collector theorems can compare collectFiles against it. -/
def expandPath (fs : FS) (p : String) : List String :=
  if fs.isDir p then (fs.rglob p).filter fs.isFile
  else if fs.isFile p then [p]
  else []

/-! ## The per-file loop and main -/

/-- One log line of the run log, as written by main for a successfully
hashed file (without the trailing newline): timestamp, quoted path,
algorithm name and digest, type string, working directory. -/
def logLine (env : RunEnv) (i : Nat) (algoName path digest : String) : String :=
  "[" ++ env.timestamp i ++ "] File: \x27" ++ path ++ "\x27 | Hash (" ++ algoName ++
  "): " ++ digest ++ " | Type: " ++ env.fileType path ++ " | Dir: " ++ env.cwd

/-- The error notice hash_file emits when hashing a path fails. -/
def hashErrNotice (env : RunEnv) (path : String) : String :=
  "Failed to hash " ++ path ++ ": " ++ env.errMsg path

/-- The per-file loop of main, from the i-th 1-based position on: hash
each file; a falsy result (None, after the notice emitted inside
hash_file, or an empty string) is skipped with continue, otherwise one
log record is appended.  Returns the appended records and the error
notices, each in emission order. -/
def processGo (env : RunEnv) (algoName : String) (algo : HashAlgo) :
    Nat → List String → List String × List String
  | _, [] => ([], [])
  | i, f :: rest =>
      let r := processGo env algoName algo (i + 1) rest
      match hashFile env.fs algo f with
      | none => (r.1, hashErrNotice env f :: r.2)
      | some d => if d = "" then r else (logLine env i algoName f d :: r.1, r.2)

/-- The whole per-file loop of main (enumerate starts at 1). -/
def processFiles (env : RunEnv) (algoName : String) (algo : HashAlgo)
    (files : List String) : List String × List String :=
  processGo env algoName algo 1 files

/-- Observable outcome of one invocation of main: the process exit code,
the state of the output destination after the run (none when the file
does not exist), how many input files were opened for hashing, and the
error notices emitted. -/
structure Outcome : Type where
  exitCode : Nat
  outFile : Option (List String)
  opens : Nat
  errors : List String
deriving DecidableEq

/-- main of new.py over the embedding.  outFile0 is the prior state of
the output destination.  An algorithm name outside HASH_ALGOS is rejected
by argparse with usage exit code 2 before collection or any file access;
an empty collected list exits with code 1 before the output file is
opened; otherwise the output is opened in append mode (created empty if
absent), every collected file is processed in order, and the process ends
with exit code 0. -/
def runMain (env : RunEnv) (paths : List String) (algoName : String)
    (outFile0 : Option (List String)) : Outcome :=
  match parseAlgo algoName with
  | none => { exitCode := 2, outFile := outFile0, opens := 0, errors := [] }
  | some algo =>
      let collected := collectFiles env.fs paths
      if collected.1 = [] then
        { exitCode := 1, outFile := outFile0, opens := 0,
          errors := collected.2 ++ ["No valid files found."] }
      else
        let pr := processFiles env algoName algo collected.1
        { exitCode := 0, outFile := some (outFile0.getD [] ++ pr.1),
          opens := collected.1.length, errors := collected.2 ++ pr.2 }

/-! ## Concrete test world used to instantiate the theorems -/

/-- A small concrete filesystem: a readable file a, a file bad whose open
fails, and a directory d holding the readable file d/x and the
subdirectory d/sub. -/
def wFS : FS where
  isFile := fun p => p == "a" || p == "bad" || p == "d/x"
  isDir := fun p => p == "d" || p == "d/sub"
  rglob := fun p => if p == "d" then ["d/x", "d/sub"] else []
  readFile := fun p =>
    if p == "a" then some [97]
    else if p == "d/x" then some [98, 99]
    else none

/-- Run environment over wFS with fixed presentation-layer data. -/
def wEnv : RunEnv where
  fs := wFS
  fileType := fun _ => "data"
  errMsg := fun _ => "Permission denied"
  timestamp := fun _ => "2026-10-12 00:00:00"
  cwd := "/work"

/-- A filesystem whose every path reads as a zero-length file. -/
def wFSe : FS where
  isFile := fun _ => true
  isDir := fun _ => false
  rglob := fun _ => []
  readFile := fun _ => some []

/-! ## Lemmas about the read loop and the digests -/

/-- Hexadecimal digest length, in characters, of each algorithm. -/
def hexLen : HashAlgo → Nat
  | HashAlgo.sha256 => 64
  | HashAlgo.sha1 => 40
  | HashAlgo.md5 => 32

lemma chunksOfGo_flatten {α : Type} (k : Nat) (hk : 0 < k) :
    ∀ (fuel : Nat) (l : List α), l.length ≤ fuel → (chunksOfGo fuel k l).flatten = l := by
  intro fuel
  induction fuel with
  | zero =>
      intro l hl
      have : l = [] := List.length_eq_zero.mp (Nat.le_zero.mp hl)
      subst this
      simp [chunksOfGo]
  | succ n ih =>
      intro l hl
      cases l with
      | nil => simp [chunksOfGo]
      | cons a t =>
          have hdrop : ((a :: t).drop k).length ≤ n := by
            simp only [List.length_drop, List.length_cons]
            simp only [List.length_cons] at hl
            omega
          simp only [chunksOfGo, List.flatten_cons, ih _ hdrop]
          exact List.take_append_drop k (a :: t)

lemma foldl_hasherUpdate (cs : List (List Nat)) :
    ∀ acc : List Nat, cs.foldl hasherUpdate acc = acc ++ cs.flatten := by
  induction cs with
  | nil => intro acc; simp
  | cons c t ih => intro acc; simp [hasherUpdate, ih, List.append_assoc]

/-- Feeding the content in any positive chunk size produces the digest of
the whole content. -/
lemma hashChunked_eq (algo : HashAlgo) (k : Nat) (hk : 0 < k) (content : List Nat) :
    hashChunked algo k content = hasherHexdigest algo content := by
  unfold hashChunked chunksOf hasherInit
  rw [foldl_hasherUpdate, chunksOfGo_flatten k hk content.length content le_rfl]
  simp

lemma length_toBytesBE (n x : Nat) : (toBytesBE n x).length = n := by
  simp [toBytesBE]

lemma length_toBytesLE (n x : Nat) : (toBytesLE n x).length = n := by
  simp [toBytesLE]

lemma length_st8Bytes (st : St8) : (st8Bytes st).length = 32 := by
  simp [st8Bytes, length_toBytesBE]

lemma length_st5Bytes (st : St5) : (st5Bytes st).length = 20 := by
  simp [st5Bytes, length_toBytesBE]

lemma length_st4Bytes (st : St4) : (st4Bytes st).length = 16 := by
  simp [st4Bytes, length_toBytesLE]

lemma two_mul_digestBytes_length (algo : HashAlgo) (s : List Nat) :
    2 * (digestBytes algo s).length = hexLen algo := by
  cases algo <;>
    simp [digestBytes, hexLen, sha256Bytes, sha1Bytes, md5Bytes,
      length_st8Bytes, length_st5Bytes, length_st4Bytes]

lemma bytesToHex_data_length (bs : List Nat) :
    (bs.foldr (fun b acc => hexChar (b / 16) :: hexChar (b % 16) :: acc) []).length
      = 2 * bs.length := by
  induction bs with
  | nil => simp
  | cons b t ih => simp [ih]; omega

lemma bytesToHex_length (bs : List Nat) : (bytesToHex bs).length = 2 * bs.length := by
  simp [bytesToHex, String.length, bytesToHex_data_length]

lemma hasherHexdigest_length (algo : HashAlgo) (s : List Nat) :
    (hasherHexdigest algo s).length = hexLen algo := by
  rw [hasherHexdigest, bytesToHex_length, two_mul_digestBytes_length]

/-- The finalised digest string is never empty, so the falsy check in the
main loop (if not hash_val) skips a file only when hash_file failed. -/
lemma hasherHexdigest_ne_empty (algo : HashAlgo) (s : List Nat) :
    hasherHexdigest algo s ≠ "" := by
  intro h
  have hl := hasherHexdigest_length algo s
  rw [h] at hl
  cases algo <;> simp [hexLen] at hl

/-! ## Lemmas about the per-file loop -/

lemma length_filter_enumFrom {α : Type} (p : α → Bool) :
    ∀ (l : List α) (i : Nat),
      ((List.enumFrom i l).filter (fun x => p x.2)).length = (l.filter p).length := by
  intro l
  induction l with
  | nil => intro i; simp
  | cons a t ih =>
      intro i
      cases h : p a <;> simp [List.enumFrom, List.filter_cons, h, ih]

/-- Characterisation of the per-file loop: the log records are exactly
one line per file whose open and read succeeded, in order, each carrying
the digest of that file, and the error notices are exactly one per file
whose open or read failed. -/
lemma processGo_spec (env : RunEnv) (algoName : String) (algo : HashAlgo) :
    ∀ (files : List String) (i : Nat),
      processGo env algoName algo i files =
        (((List.enumFrom i files).filter (fun x => (env.fs.readFile x.2).isSome)).map
           (fun x => logLine env x.1 algoName x.2
              (hasherHexdigest algo ((env.fs.readFile x.2).getD []))),
         (files.filter (fun f => (env.fs.readFile f).isNone)).map (hashErrNotice env)) := by
  intro files
  induction files with
  | nil => intro i; simp [processGo]
  | cons f t ih =>
      intro i
      cases h : env.fs.readFile f with
      | none => simp [processGo, hashFile, h, ih, List.enumFrom, List.filter_cons]
      | some c =>
          have hd : hashChunked algo 8192 c = hasherHexdigest algo c :=
            hashChunked_eq algo 8192 (by omega) c
          have hne : ¬(hashChunked algo 8192 c = "") := by
            rw [hd]; exact hasherHexdigest_ne_empty algo c
          simp [processGo, hashFile, h, ih, List.enumFrom, List.filter_cons, hd, hne]
          exact hasherHexdigest_ne_empty algo c

/-! ## Lemmas about the collector -/

/-- Characterisation of the collect_files loop from any accumulator. -/
lemma collectStep_foldl (fs : FS) :
    ∀ (paths : List String) (acc : List String × List String),
      paths.foldl (collectStep fs) acc =
        (acc.1 ++ (paths.map (expandPath fs)).flatten,
         acc.2 ++ (paths.filter (fun p => !fs.isDir p && !fs.isFile p)).map
           (fun p => "Invalid path: " ++ p)) := by
  intro paths
  induction paths with
  | nil => intro acc; simp
  | cons p t ih =>
      intro acc
      by_cases hd : fs.isDir p
      · simp [collectStep, hd, ih, expandPath, List.filter_cons, List.append_assoc]
      · by_cases hf : fs.isFile p
        · simp [collectStep, hd, hf, ih, expandPath, List.filter_cons, List.append_assoc]
        · simp [collectStep, hd, hf, ih, expandPath, List.filter_cons, List.append_assoc]

/-- collect_files is the per-input expansion, concatenated in input
order, plus one Invalid path notice per invalid input, in input order. -/
lemma collectFiles_eq (fs : FS) (paths : List String) :
    collectFiles fs paths =
      ((paths.map (expandPath fs)).flatten,
       (paths.filter (fun p => !fs.isDir p && !fs.isFile p)).map
         (fun p => "Invalid path: " ++ p)) := by
  unfold collectFiles
  rw [collectStep_foldl]
  simp

/-! ## Claim theorems -/

/-- C5: for every file contents and every supported algorithm, feeding
the contents to the incremental digest accumulator in any positive chunk
size, in particular size 1, yields the identical final hex digest as
feeding it in chunks of size 8192. -/
theorem chunking_independence (algo : HashAlgo) (content : List Nat) (k : Nat)
    (hk : 0 < k) :
    hashChunked algo k content = hashChunked algo 8192 content := by
  rw [hashChunked_eq algo k hk content, hashChunked_eq algo 8192 (by omega) content]

theorem chunking_independence_witness :
    0 < 1 ∧ hashChunked HashAlgo.sha256 1 [97, 98, 99] =
      hashChunked HashAlgo.sha256 8192 [97, 98, 99] :=
  ⟨by decide, chunking_independence HashAlgo.sha256 [97, 98, 99] 1 (by decide)⟩

set_option maxRecDepth 100000 in
/-- C6: for every supported algorithm, hashing a zero-length file
succeeds and yields that well-known empty-input digest; with
the 256-bit algorithm the result is the fixed 64-hex-character constant
e3b0c44298fc1c149afbf4c8996fb92427ae41e4649b934ca495991b7852b855. -/
theorem empty_input_digests (fs : FS) (p : String) (h : fs.readFile p = some []) :
    hashFile fs HashAlgo.sha256 p =
      some "e3b0c44298fc1c149afbf4c8996fb92427ae41e4649b934ca495991b7852b855"
    ∧ hashFile fs HashAlgo.sha1 p =
      some "da39a3ee5e6b4b0d3255bfef95601890afd80709"
    ∧ hashFile fs HashAlgo.md5 p =
      some "d41d8cd98f00b204e9800998ecf8427e" := by
  refine ⟨?_, ?_, ?_⟩ <;> simp only [hashFile, h] <;> decide

theorem empty_input_digests_witness :
    wFSe.readFile "f" = some [] ∧
      (hashFile wFSe HashAlgo.sha256 "f" =
        some "e3b0c44298fc1c149afbf4c8996fb92427ae41e4649b934ca495991b7852b855"
      ∧ hashFile wFSe HashAlgo.sha1 "f" =
        some "da39a3ee5e6b4b0d3255bfef95601890afd80709"
      ∧ hashFile wFSe HashAlgo.md5 "f" =
        some "d41d8cd98f00b204e9800998ecf8427e") :=
  ⟨rfl, empty_input_digests wFSe "f" rfl⟩

/-- C9: hash_file is total at its public interface: for every file path
and every supported algorithm it returns either a hex digest string of
the digest length of the algorithm or None, the latter exactly when the open
or read fails; no exception escapes to the caller. -/
theorem hash_file_total (fs : FS) (algo : HashAlgo) (p : String) :
    (hashFile fs algo p = none ∧ fs.readFile p = none)
    ∨ (∃ d : String, hashFile fs algo p = some d ∧ d.length = hexLen algo
        ∧ (fs.readFile p).isSome = true) := by
  cases h : fs.readFile p with
  | none => exact Or.inl ⟨by simp [hashFile, h], rfl⟩
  | some c =>
      refine Or.inr ⟨hashChunked algo 8192 c, by simp [hashFile, h], ?_, by simp [h]⟩
      rw [hashChunked_eq algo 8192 (by omega) c]
      exact hasherHexdigest_length algo c

lemma length_filter_isSome_add (fs : FS) :
    ∀ (l : List String) (i : Nat),
      ((List.enumFrom i l).filter (fun x => (fs.readFile x.2).isSome)).length
        + (l.filter (fun f => (fs.readFile f).isNone)).length = l.length := by
  intro l
  induction l with
  | nil => intro i; simp
  | cons a t ih =>
      intro i
      have hih := ih (i + 1)
      cases h : fs.readFile a <;>
        simp [List.enumFrom, List.filter_cons, h] <;> omega

/-- C1: a log record is written for a file if and only if that file was
successfully opened and fully read and its digest computed; a file whose
open or read fails produces no log record, only an error notice.  The
first conjunct places the per-file loop inside main; the second
characterises exactly which files produce records and which produce
notices. -/
theorem log_iff_hash_success (env : RunEnv) (paths : List String) (algoName : String)
    (algo : HashAlgo) (out0 : Option (List String))
    (ha : parseAlgo algoName = some algo)
    (hne : (collectFiles env.fs paths).1 ≠ []) :
    (runMain env paths algoName out0).outFile =
      some (out0.getD [] ++
        (processFiles env algoName algo (collectFiles env.fs paths).1).1)
    ∧ ∀ files : List String,
        processFiles env algoName algo files =
          (((List.enumFrom 1 files).filter (fun x => (env.fs.readFile x.2).isSome)).map
             (fun x => logLine env x.1 algoName x.2
                (hasherHexdigest algo ((env.fs.readFile x.2).getD []))),
           (files.filter (fun f => (env.fs.readFile f).isNone)).map (hashErrNotice env)) := by
  constructor
  · simp [runMain, ha, hne]
  · intro files
    exact processGo_spec env algoName algo files 1

theorem log_iff_hash_success_witness :
    parseAlgo "sha256" = some HashAlgo.sha256
    ∧ (collectFiles wEnv.fs ["a", "bad"]).1 ≠ []
    ∧ (runMain wEnv ["a", "bad"] "sha256" none).outFile =
        some ((none : Option (List String)).getD [] ++
          (processFiles wEnv "sha256" HashAlgo.sha256
            (collectFiles wEnv.fs ["a", "bad"]).1).1) :=
  ⟨by decide, by decide,
    (log_iff_hash_success wEnv ["a", "bad"] "sha256" HashAlgo.sha256 none
      (by decide) (by decide)).1⟩

/-- C2: the Path Collector returns the per-input expansions concatenated
in input order: a regular-file input appears as-is, a directory input is
replaced by the regular files of its recursive enumeration, directory
entries themselves are never included, and every other input is skipped
with an error notice naming the path while collection continues. -/
theorem collect_files_contract (fs : FS) (hwf : fs.Wellformed) (paths : List String) :
    (collectFiles fs paths).1 = (paths.map (expandPath fs)).flatten
    ∧ (∀ q ∈ (collectFiles fs paths).1, fs.isFile q = true ∧ fs.isDir q = false)
    ∧ (collectFiles fs paths).2 =
        (paths.filter (fun p => !fs.isDir p && !fs.isFile p)).map
          (fun p => "Invalid path: " ++ p) := by
  refine ⟨by simp [collectFiles_eq], ?_, by simp [collectFiles_eq]⟩
  intro q hq
  rw [collectFiles_eq] at hq
  simp only [List.mem_flatten, List.mem_map] at hq
  obtain ⟨l, ⟨p, hp, rfl⟩, hql⟩ := hq
  unfold expandPath at hql
  by_cases hd : fs.isDir p = true
  · simp only [hd, if_true] at hql
    have hm := List.mem_filter.mp hql
    exact ⟨hm.2, hwf q hm.2⟩
  · by_cases hf : fs.isFile p = true
    · simp only [hd, hf, if_false, if_true] at hql
      have : q = p := List.mem_singleton.mp hql
      subst this
      exact ⟨hf, hwf q hf⟩
    · simp [hd, hf] at hql

theorem collect_files_contract_witness :
    wFS.Wellformed
    ∧ ((collectFiles wFS ["a", "d", "nope"]).1 =
        ((["a", "d", "nope"].map (expandPath wFS)).flatten)
      ∧ (∀ q ∈ (collectFiles wFS ["a", "d", "nope"]).1,
          wFS.isFile q = true ∧ wFS.isDir q = false)
      ∧ (collectFiles wFS ["a", "d", "nope"]).2 =
          (["a", "d", "nope"].filter (fun p => !wFS.isDir p && !wFS.isFile p)).map
            (fun p => "Invalid path: " ++ p)) := by
  have hwf : wFS.Wellformed := by
    intro p h
    simp only [wFS] at h ⊢
    rcases Bool.or_eq_true_iff.mp h with h1 | h1
    · rcases Bool.or_eq_true_iff.mp h1 with h2 | h2 <;>
        rw [eq_of_beq h2] <;> decide
    · rw [eq_of_beq h1]; decide
  exact ⟨hwf, collect_files_contract wFS hwf ["a", "d", "nope"]⟩

/-- C3: when the resolved file list after collection is empty, the
program reports an error and exits with status 1, and the output
destination is neither created nor touched. -/
theorem empty_fileset_exits_one (env : RunEnv) (paths : List String) (algoName : String)
    (algo : HashAlgo) (out0 : Option (List String))
    (ha : parseAlgo algoName = some algo)
    (he : (collectFiles env.fs paths).1 = []) :
    (runMain env paths algoName out0).exitCode = 1
    ∧ (runMain env paths algoName out0).outFile = out0
    ∧ "No valid files found." ∈ (runMain env paths algoName out0).errors := by
  simp [runMain, ha, he]

theorem empty_fileset_exits_one_witness :
    parseAlgo "sha256" = some HashAlgo.sha256
    ∧ (collectFiles wEnv.fs ["nope"]).1 = []
    ∧ ((runMain wEnv ["nope"] "sha256" none).exitCode = 1
      ∧ (runMain wEnv ["nope"] "sha256" none).outFile = none
      ∧ "No valid files found." ∈ (runMain wEnv ["nope"] "sha256" none).errors) :=
  ⟨by decide, by decide,
    empty_fileset_exits_one wEnv ["nope"] "sha256" HashAlgo.sha256 none
      (by decide) (by decide)⟩

/-- C4: invoking the run with an algorithm name outside the supported set
fails at startup, before collection and before any file is processed or
opened: the outcome is the fixed usage-error outcome, independent of the
filesystem and the inputs, with zero file opens. -/
theorem bad_algo_rejected_at_startup (env : RunEnv) (paths : List String)
    (algoName : String) (out0 : Option (List String))
    (h256 : algoName ≠ "sha256") (h1 : algoName ≠ "sha1") (hmd : algoName ≠ "md5") :
    parseAlgo algoName = none
    ∧ runMain env paths algoName out0 =
        { exitCode := 2, outFile := out0, opens := 0, errors := [] } := by
  have e1 : (("sha256" : String) == algoName) = false :=
    beq_eq_false_iff_ne.mpr (Ne.symm h256)
  have e2 : (("sha1" : String) == algoName) = false :=
    beq_eq_false_iff_ne.mpr (Ne.symm h1)
  have e3 : (("md5" : String) == algoName) = false :=
    beq_eq_false_iff_ne.mpr (Ne.symm hmd)
  have hp : parseAlgo algoName = none := by
    simp [parseAlgo, HASH_ALGOS, List.find?, e1, e2, e3]
  exact ⟨hp, by simp [runMain, hp]⟩

theorem bad_algo_rejected_at_startup_witness :
    ("sha512" : String) ≠ "sha256"
    ∧ ("sha512" : String) ≠ "sha1"
    ∧ ("sha512" : String) ≠ "md5"
    ∧ (parseAlgo "sha512" = none
      ∧ runMain wEnv ["a"] "sha512" (some ["old line"]) =
          { exitCode := 2, outFile := some ["old line"], opens := 0, errors := [] }) :=
  ⟨by decide, by decide, by decide,
    bad_algo_rejected_at_startup wEnv ["a"] "sha512" (some ["old line"])
      (by decide) (by decide) (by decide)⟩

/-- C7: when two consecutive runs write to the same output destination,
the second run appends its records after the records of the first run without
truncating or overwriting them: starting from a nonexistent destination,
the file after the second run is exactly the records of the first run
followed by the records of the second run, its line count is the sum of the successful
records of both runs, and the lines of the first run are an unchanged
prefix. -/
theorem append_only_across_runs (env1 env2 : RunEnv) (paths1 paths2 : List String)
    (a1 a2 : String) (g1 g2 : HashAlgo)
    (ha1 : parseAlgo a1 = some g1) (hne1 : (collectFiles env1.fs paths1).1 ≠ [])
    (ha2 : parseAlgo a2 = some g2) (hne2 : (collectFiles env2.fs paths2).1 ≠ []) :
    (runMain env1 paths1 a1 none).outFile =
      some (processFiles env1 a1 g1 (collectFiles env1.fs paths1).1).1
    ∧ (runMain env2 paths2 a2 (runMain env1 paths1 a1 none).outFile).outFile =
      some ((processFiles env1 a1 g1 (collectFiles env1.fs paths1).1).1
        ++ (processFiles env2 a2 g2 (collectFiles env2.fs paths2).1).1)
    ∧ ((processFiles env1 a1 g1 (collectFiles env1.fs paths1).1).1
        ++ (processFiles env2 a2 g2 (collectFiles env2.fs paths2).1).1).length
      = (processFiles env1 a1 g1 (collectFiles env1.fs paths1).1).1.length
        + (processFiles env2 a2 g2 (collectFiles env2.fs paths2).1).1.length
    ∧ ((processFiles env1 a1 g1 (collectFiles env1.fs paths1).1).1
        ++ (processFiles env2 a2 g2 (collectFiles env2.fs paths2).1).1).take
          (processFiles env1 a1 g1 (collectFiles env1.fs paths1).1).1.length
      = (processFiles env1 a1 g1 (collectFiles env1.fs paths1).1).1 := by
  have r1 : (runMain env1 paths1 a1 none).outFile =
      some (processFiles env1 a1 g1 (collectFiles env1.fs paths1).1).1 := by
    simp [runMain, ha1, hne1]
  refine ⟨r1, ?_, List.length_append _ _, List.take_left _ _⟩
  rw [r1]
  simp [runMain, ha2, hne2]

theorem append_only_across_runs_witness :
    parseAlgo "sha256" = some HashAlgo.sha256
    ∧ (collectFiles wEnv.fs ["a"]).1 ≠ []
    ∧ parseAlgo "md5" = some HashAlgo.md5
    ∧ (collectFiles wEnv.fs ["d"]).1 ≠ []
    ∧ (runMain wEnv ["d"] "md5" (runMain wEnv ["a"] "sha256" none).outFile).outFile =
        some ((processFiles wEnv "sha256" HashAlgo.sha256 (collectFiles wEnv.fs ["a"]).1).1
          ++ (processFiles wEnv "md5" HashAlgo.md5 (collectFiles wEnv.fs ["d"]).1).1) :=
  ⟨by decide, by decide, by decide, by decide,
    (append_only_across_runs wEnv wEnv ["a"] ["d"] "sha256" "md5"
      HashAlgo.sha256 HashAlgo.md5
      (by decide) (by decide) (by decide) (by decide)).2.1⟩

/-- C8: a run whose resolved file list is non-empty exits with code 0
even if some or all individual files fail to hash; every file in the list
is opened for processing, and every file yields either one record or one
error notice, so no per-file error aborts the batch. -/
theorem nonempty_run_exits_zero (env : RunEnv) (paths : List String) (algoName : String)
    (algo : HashAlgo) (out0 : Option (List String))
    (ha : parseAlgo algoName = some algo)
    (hne : (collectFiles env.fs paths).1 ≠ []) :
    (runMain env paths algoName out0).exitCode = 0
    ∧ (runMain env paths algoName out0).opens = (collectFiles env.fs paths).1.length
    ∧ (processFiles env algoName algo (collectFiles env.fs paths).1).1.length
        + (processFiles env algoName algo (collectFiles env.fs paths).1).2.length
      = (collectFiles env.fs paths).1.length := by
  refine ⟨by simp [runMain, ha, hne], by simp [runMain, ha, hne], ?_⟩
  rw [processFiles, processGo_spec]
  simp only [List.length_map]
  exact length_filter_isSome_add env.fs (collectFiles env.fs paths).1 1

theorem nonempty_run_exits_zero_witness :
    parseAlgo "sha256" = some HashAlgo.sha256
    ∧ (collectFiles wEnv.fs ["a", "bad"]).1 ≠ []
    ∧ ((runMain wEnv ["a", "bad"] "sha256" none).exitCode = 0
      ∧ (runMain wEnv ["a", "bad"] "sha256" none).opens =
          (collectFiles wEnv.fs ["a", "bad"]).1.length
      ∧ (processFiles wEnv "sha256" HashAlgo.sha256
            (collectFiles wEnv.fs ["a", "bad"]).1).1.length
          + (processFiles wEnv "sha256" HashAlgo.sha256
              (collectFiles wEnv.fs ["a", "bad"]).1).2.length
        = (collectFiles wEnv.fs ["a", "bad"]).1.length) :=
  ⟨by decide, by decide,
    nonempty_run_exits_zero wEnv ["a", "bad"] "sha256" HashAlgo.sha256 none
      (by decide) (by decide)⟩

/-- C10: collect_files performs no deduplication: a regular file supplied
twice appears twice in the returned list, a file both supplied directly
and reachable under a supplied directory appears at least twice, and each
occurrence is hashed and logged separately. -/
theorem no_deduplication (env : RunEnv) (algoName : String) (algo : HashAlgo)
    (p d : String) (c : List Nat)
    (hpf : env.fs.isFile p = true) (hpd : env.fs.isDir p = false)
    (hdd : env.fs.isDir d = true) (hmem : p ∈ env.fs.rglob d)
    (hread : env.fs.readFile p = some c) :
    (collectFiles env.fs [p, p]).1 = [p, p]
    ∧ 2 ≤ (collectFiles env.fs [p, d]).1.count p
    ∧ (processFiles env algoName algo [p, p]).1.length = 2 := by
  have hexp : expandPath env.fs p = [p] := by simp [expandPath, hpd, hpf]
  have hexpd : expandPath env.fs d = (env.fs.rglob d).filter env.fs.isFile := by
    simp [expandPath, hdd]
  refine ⟨by simp [collectFiles_eq, hexp], ?_, ?_⟩
  · rw [collectFiles_eq]
    simp only [List.map_cons, List.map_nil, hexp, hexpd, List.flatten_cons,
      List.flatten_nil, List.append_nil, List.singleton_append, List.count_cons_self]
    have hmemf : p ∈ (env.fs.rglob d).filter env.fs.isFile :=
      List.mem_filter.mpr ⟨hmem, hpf⟩
    have hpos : 0 < ((env.fs.rglob d).filter env.fs.isFile).count p :=
      List.count_pos_iff.mpr hmemf
    omega
  · rw [processFiles, processGo_spec]
    simp [hread, List.enumFrom, List.filter_cons]

theorem no_deduplication_witness :
    wEnv.fs.isFile "d/x" = true
    ∧ wEnv.fs.isDir "d/x" = false
    ∧ wEnv.fs.isDir "d" = true
    ∧ "d/x" ∈ wEnv.fs.rglob "d"
    ∧ wEnv.fs.readFile "d/x" = some [98, 99]
    ∧ ((collectFiles wEnv.fs ["d/x", "d/x"]).1 = ["d/x", "d/x"]
      ∧ 2 ≤ (collectFiles wEnv.fs ["d/x", "d"]).1.count "d/x"
      ∧ (processFiles wEnv "sha256" HashAlgo.sha256 ["d/x", "d/x"]).1.length = 2) :=
  ⟨by decide, by decide, by decide, by decide, by decide,
    no_deduplication wEnv "sha256" HashAlgo.sha256 "d/x" "d" [98, 99]
      (by decide) (by decide) (by decide) (by decide) (by decide)⟩

end Hasher
